import Mathlib

/-!
Verification of the command extractor/dispatcher of `i.ai.py`
(`IAIGrassAddon.extract_and_execute_commands`).

The extractor scans free-form text with nine regex pattern families
(seven GRASS namespace families `g. r. v. i. db. t. m.`, one `gdal`
family, one shell-tool alternation), compiled with
`re.IGNORECASE | re.MULTILINE`, accumulates `re.findall` results in
pattern order, and deduplicates by exact string equality keeping the
first occurrence.  The dispatcher classifies each candidate
(GRASS-structured / process / unknown) and runs it inside a
per-candidate `try/except`, reporting one outcome per candidate.

The embedding below models the regex families directly (the specific
patterns are simple enough to admit a deterministic maximal-munch
reading: every repetition in them is greedy and never needs
backtracking, because `\w`, `\s` and `\S` are pairwise disjoint where
they meet), `re.findall`'s left-to-right non-overlapping scan with
word-boundary checks, and the dispatch loop with the two external
collaborators (`grass.script.read_command` and `subprocess.run`)
supplied as an explicit environment.
-/

set_option maxRecDepth 4000

/-- Python `\w` (ASCII range): letters, digits, underscore. -/
def isWordChar (c : Char) : Bool := c.isAlpha || c.isDigit || c = '_'

/-- Python `\s` (ASCII range): whitespace. -/
def isSpace (c : Char) : Bool := c.isWhitespace

/-- Case-insensitive literal match (`re.IGNORECASE`): consumes `lit`
from the front of `l`, returning the consumed characters exactly as
they appear in the input together with the rest of the input. -/
def matchLitCI : List Char → List Char → Option (List Char × List Char)
  | [], l => some ([], l)
  | _ :: _, [] => none
  | c :: cs, d :: ds =>
    if c.toLower = d.toLower then
      match matchLitCI cs ds with
      | some (m, r) => some (d :: m, r)
      | none => none
    else none

/-- The trailing-argument part `(?:\s+[^\s\n]+)*` of every pattern
family.  Since `\n ∈ \s`, the class `[^\s\n]` is just `\S`; the greedy
repetition consumes alternating whitespace-runs and
non-whitespace-runs, i.e. on input beginning with a whitespace
character it consumes everything up to (and including) the last
non-whitespace character, and otherwise it consumes nothing. -/
def matchArgs (l : List Char) : List Char :=
  match l with
  | [] => []
  | c :: _ => if isSpace c then (l.reverse.dropWhile isSpace).reverse else []

/-- A pattern family: given the text at a word boundary, return
`some (captured group, full match)` or `none`. -/
abbrev Matcher := List Char → Option (List Char × List Char)

/-- One GRASS namespace family `\b(p\.\w+(?:\s+[^\s\n]+)*)` for a
namespace code `p` (the capture group is the whole match). -/
def grassFamily (p : List Char) : Matcher := fun l =>
  match matchLitCI (p ++ ['.']) l with
  | none => none
  | some (m1, r1) =>
    let w := r1.takeWhile isWordChar
    if w.isEmpty then none
    else
      let a := matchArgs (r1.drop w.length)
      let full := m1 ++ w ++ a
      some (full, full)

/-- The GDAL family `\b(gdal\w+(?:\s+[^\s\n]+)*)`. -/
def gdalFamily : Matcher := fun l =>
  match matchLitCI ['g', 'd', 'a', 'l'] l with
  | none => none
  | some (m1, r1) =>
    let w := r1.takeWhile isWordChar
    if w.isEmpty then none
    else
      let a := matchArgs (r1.drop w.length)
      let full := m1 ++ w ++ a
      some (full, full)

/-- The shell-tool names of the ninth pattern, in declaration order. -/
def toolNames : List (List Char) :=
  [['w', 'g', 'e', 't'], ['c', 'u', 'r', 'l'], ['u', 'n', 'z', 'i', 'p'],
   ['t', 'a', 'r'], ['g', 'z', 'i', 'p'], ['a', 'w', 'k'],
   ['s', 'e', 'd'], ['g', 'r', 'e', 'p']]

/-- The shell-tool family
`\b(wget|curl|unzip|tar|gzip|awk|sed|grep)(?:\s+[^\s\n]+)*`: the
alternation is tried left to right; only the tool name is captured,
while the full match also consumes the trailing arguments. -/
def toolFamily : List (List Char) → Matcher
  | [], _ => none
  | t :: ts, l =>
    match matchLitCI t l with
    | some (m1, r1) => some (m1, m1 ++ matchArgs r1)
    | none => toolFamily ts l

/-- Model of `re.findall` for one pattern family: left-to-right scan trying each
position that sits at a `\b` word boundary (every family starts with a
letter, so the boundary holds exactly when the previous character is
not a word character), collecting capture groups of non-overlapping
matches and resuming after each full match.  `fuel` is an upper bound
on the number of scan steps; callers pass the length of the text. -/
def scanA (m : Matcher) : Nat → Bool → List Char → List (List Char)
  | 0, _, _ => []
  | _ + 1, _, [] => []
  | fuel + 1, prev, c :: rest =>
    if prev then scanA m fuel (isWordChar c) rest
    else
      match m (c :: rest) with
      | some (cap, full) =>
        cap :: scanA m fuel (isWordChar (full.getLastD c)) (rest.drop (full.length - 1))
      | none => scanA m fuel (isWordChar c) rest

/-- The nine pattern families of `command_patterns`, in declaration
order. -/
def familyMatchers : List Matcher :=
  [grassFamily ['g'], grassFamily ['r'], grassFamily ['v'], grassFamily ['i'],
   grassFamily ['d', 'b'], grassFamily ['t'], grassFamily ['m'],
   gdalFamily, toolFamily toolNames]

/-- All matches of all pattern families, in pattern-declaration order,
text order within each family (`for pattern in command_patterns:
re.findall(...)`). -/
def rawMatches (s : String) : List String :=
  (familyMatchers.map
    (fun m => (scanA m s.data.length false s.data).map (fun cs => String.mk cs))).flatten

/-- The matches of the shell-tool family alone (the ninth entry of
`familyMatchers`). -/
def shellMatches (s : String) : List String :=
  (scanA (toolFamily toolNames) s.data.length false s.data).map (fun cs => String.mk cs)

/-- One step of the dedup loop `if match not in executed_commands:
executed_commands.append(match)`. -/
def addIfNew (acc : List String) (x : String) : List String :=
  if x ∈ acc then acc else acc ++ [x]

/-- The dedup loop over all matches. -/
def dedupFold (l : List String) : List String := l.foldl addIfNew []

/-- The extractor: the deduplicated ordered candidate list built by
`extract_and_execute_commands` before the dispatch loop. -/
def extract (s : String) : List String := dedupFold (rawMatches s)

/-- Python `str.split()` with no argument: split on whitespace runs,
dropping empty pieces (the filter below removes the empties). -/
def splitTokens : List Char → List (List Char)
  | [] => []
  | c :: l =>
    if isSpace c then [] :: splitTokens l
    else
      match splitTokens l with
      | [] => [[c]]
      | t :: ts => (c :: t) :: ts

/-- Model of `cmd.split()` as used by both dispatch branches. -/
def pySplit (s : String) : List String :=
  ((splitTokens s.data).filter (fun t => !t.isEmpty)).map (fun t => String.mk t)

/-- Prefix test `p.data.isPrefixOf s.data`, i.e. Python `s.startswith(p)`. -/
def strStarts (p s : String) : Bool := p.data.isPrefixOf s.data

/-- The namespace-prefix tuple of the `cmd.startswith((...))`
classification test. -/
def structuredCodes : List String :=
  ["g.", "r.", "v.", "i.", "db.", "t.", "m.", "d.", "ps.", "r3."]

/-- The shell-tool list of the `any(tool in cmd for tool in [...])`
classification test. -/
def shellToolNames : List String :=
  ["wget", "curl", "unzip", "tar", "gzip", "awk", "sed", "grep"]

/-- Substring containment, Python `needle in hay`. -/
def listContains (needle : List Char) : List Char → Bool
  | [] => needle.isEmpty
  | c :: rest => needle.isPrefixOf (c :: rest) || listContains needle rest

/-- First classification rule: `cmd.startswith(('g.', 'r.', 'v.',
'i.', 'db.', 't.', 'm.', 'd.', 'ps.', 'r3.'))`. -/
def isStructuredCmd (cmd : String) : Bool :=
  structuredCodes.any (fun p => strStarts p cmd)

/-- Second classification rule: `cmd.startswith('gdal') or any(tool in
cmd for tool in [...])`. -/
def isProcessCmd (cmd : String) : Bool :=
  strStarts "gdal" cmd || shellToolNames.any (fun t => listContains t.data cmd.data)

/-- The backend a candidate is routed to. -/
inductive Backend where
  | structured
  | process
  | unknownType
deriving DecidableEq, Repr

/-- Classification of one candidate, following the `if/elif/else`
chain of the dispatch loop. -/
def classify (cmd : String) : Backend :=
  if isStructuredCmd cmd then .structured
  else if isProcessCmd cmd then .process
  else .unknownType

/-- Per-candidate outcome, as reported by the dispatch loop. -/
inductive Outcome where
  | structuredSuccess (out : String)
  | processSuccess (out : String)
  | processFailure (err : String)
  | unknownCommandType
  | errorExecuting (msg : String)
deriving DecidableEq, Repr

/-- The two external collaborators: `grass.script.read_command`
(returns output text or raises an error message) and `subprocess.run`
(returns exit code, stdout and stderr, or raises, e.g. on timeout). -/
structure Env where
  invoke : String → List (String × String) → Except String String
  spawn : List String → Nat → Except String (Int × String × String)

/-- Output truncation `result[:500] + "..." if len(result) > 500 else
result`. -/
def truncate500 (s : String) : String :=
  if s.length > 500 then s.take 500 ++ "..." else s

/-- Python `'=' in part`. -/
def hasEq (t : String) : Bool := t.data.any (fun c => c = '=')

/-- Python `part.split('=', 1)`: key before the first `=`, value after
it (only used when `'=' in part`). -/
def splitEqFirst (t : String) : String × String :=
  (String.mk (t.data.takeWhile (fun c => c ≠ '=')),
   String.mk ((t.data.dropWhile (fun c => c ≠ '=')).tail))

/-- Insertion-ordered dict update `params[key] = value`. -/
def setParam : List (String × String) → String → String → List (String × String)
  | [], k, v => [(k, v)]
  | (k', v') :: rest, k, v =>
    if k' = k then (k', v) :: rest else (k', v') :: setParam rest k v

/-- One iteration of the parameter loop: `key=value` tokens are split
at the first `=`; tokens without `=` go to `params['input']`. -/
def parseStep (ps : List (String × String)) (t : String) : List (String × String) :=
  if hasEq t then setParam ps (splitEqFirst t).1 (splitEqFirst t).2
  else setParam ps "input" t

/-- The parameter dict built from the argument tokens `parts[1:]`. -/
def parseParams (toks : List String) : List (String × String) :=
  toks.foldl parseStep []

/-- Dict lookup. -/
def lookupParam : List (String × String) → String → Option String
  | [], _ => none
  | (k', v) :: rest, k => if k' = k then some v else lookupParam rest k

/-- The body of the dispatch loop for one candidate, with the
surrounding `try/except` (an exception raised by either collaborator
is caught and reported as an `errorExecuting` outcome). -/
def dispatchOne (env : Env) (cmd : String) : Outcome :=
  if isStructuredCmd cmd then
    match pySplit cmd with
    | [] => .errorExecuting "list index out of range"
    | mod :: rest =>
      match env.invoke mod (parseParams rest) with
      | .ok res => .structuredSuccess (truncate500 res)
      | .error e => .errorExecuting e
  else if isProcessCmd cmd then
    match env.spawn (pySplit cmd) 60 with
    | .ok (code, out, err) =>
      if code = 0 then .processSuccess (truncate500 out) else .processFailure err
    | .error e => .errorExecuting e
  else .unknownCommandType

/-- The dispatch loop `for i, cmd in enumerate(executed_commands, 1)`. -/
def dispatch (env : Env) (cands : List String) : List Outcome :=
  cands.map (dispatchOne env)

/-- A benign sample environment. -/
def envConst : Env where
  invoke := fun _ _ => .ok "ok"
  spawn := fun _ _ => .ok (0, "out", "")

/-- A sample environment in which every external call raises. -/
def envFail : Env where
  invoke := fun _ _ => .error "host error"
  spawn := fun _ _ => .error "Command timed out after 60 seconds"

/-- A sample environment whose process calls exit non-zero. -/
def envExit : Env where
  invoke := fun _ _ => .ok "ok"
  spawn := fun _ _ => .ok (1, "", "boom")

/-- A 501-character output, longer than the truncation limit. -/
def longOut : String := String.mk (List.replicate 501 'a')

/-- A sample environment whose structured calls return `longOut` and
whose process calls succeed with a short output. -/
def envLong : Env where
  invoke := fun _ _ => .ok longOut
  spawn := fun _ _ => .ok (0, "hi", "")

example : extract "wget, wget" = ["wget"] := by decide

example : pySplit "g.region  -p  x=1" = ["g.region", "-p", "x=1"] := by decide

example : pySplit "  a  b " = ["a", "b"] := by decide

/-! ### Deduplication lemmas -/

/-- Recursive reformulation of the dedup fold: `seen` is the set of
strings already emitted. -/
def dedupAux (seen : List String) : List String → List String
  | [] => []
  | x :: xs =>
    if x ∈ seen then dedupAux seen xs else x :: dedupAux (x :: seen) xs

theorem dedupAux_congr :
    ∀ (l s₁ s₂ : List String), (∀ y, y ∈ s₁ ↔ y ∈ s₂) →
      dedupAux s₁ l = dedupAux s₂ l := by
  intro l
  induction l with
  | nil => intro s₁ s₂ _; rfl
  | cons x xs ih =>
    intro s₁ s₂ hs
    by_cases hx : x ∈ s₁
    · rw [dedupAux, dedupAux, if_pos hx, if_pos ((hs x).mp hx)]
      exact ih s₁ s₂ hs
    · rw [dedupAux, dedupAux, if_neg hx, if_neg (fun h => hx ((hs x).mpr h))]
      have : ∀ y, y ∈ x :: s₁ ↔ y ∈ x :: s₂ := by
        intro y; simp only [List.mem_cons]; rw [hs y]
      rw [ih (x :: s₁) (x :: s₂) this]

theorem foldl_addIfNew :
    ∀ (l acc : List String), l.foldl addIfNew acc = acc ++ dedupAux acc l := by
  intro l
  induction l with
  | nil => intro acc; simp [dedupAux]
  | cons x xs ih =>
    intro acc
    rw [List.foldl_cons]
    by_cases hx : x ∈ acc
    · rw [show addIfNew acc x = acc from if_pos hx, ih, dedupAux, if_pos hx]
    · rw [show addIfNew acc x = acc ++ [x] from if_neg hx, ih, dedupAux, if_neg hx]
      rw [dedupAux_congr xs (acc ++ [x]) (x :: acc)
        (by intro y; simp [List.mem_append, List.mem_cons, or_comm])]
      simp

theorem dedupFold_eq_dedupAux (l : List String) : dedupFold l = dedupAux [] l := by
  rw [dedupFold, foldl_addIfNew]; rfl

theorem mem_dedupAux :
    ∀ (l seen : List String) (x : String),
      x ∈ dedupAux seen l ↔ x ∈ l ∧ x ∉ seen := by
  intro l
  induction l with
  | nil => intro seen x; simp [dedupAux]
  | cons a xs ih =>
    intro seen x
    by_cases ha : a ∈ seen
    · rw [dedupAux, if_pos ha, ih]
      simp only [List.mem_cons]
      constructor
      · rintro ⟨hx, hns⟩; exact ⟨Or.inr hx, hns⟩
      · rintro ⟨hx | hx, hns⟩
        · exact absurd (hx ▸ ha) hns
        · exact ⟨hx, hns⟩
    · rw [dedupAux, if_neg ha]
      simp only [List.mem_cons, ih (a :: seen) x, List.mem_cons]
      constructor
      · rintro (rfl | ⟨hx, hns⟩)
        · exact ⟨Or.inl rfl, ha⟩
        · exact ⟨Or.inr hx, fun h => hns (Or.inr h)⟩
      · rintro ⟨rfl | hx, hns⟩
        · exact Or.inl rfl
        · by_cases hxa : x = a
          · exact Or.inl hxa
          · exact Or.inr ⟨hx, fun h => absurd h (by simp [hxa, hns])⟩

theorem nodup_dedupAux : ∀ (l seen : List String), (dedupAux seen l).Nodup := by
  intro l
  induction l with
  | nil => intro seen; simp [dedupAux]
  | cons x xs ih =>
    intro seen
    by_cases hx : x ∈ seen
    · rw [dedupAux, if_pos hx]; exact ih seen
    · rw [dedupAux, if_neg hx]
      refine List.Nodup.cons ?_ (ih (x :: seen))
      intro hmem
      exact ((mem_dedupAux xs (x :: seen) x).mp hmem).2 (List.mem_cons_self x seen)

theorem sublist_dedupAux : ∀ (l seen : List String), (dedupAux seen l).Sublist l := by
  intro l
  induction l with
  | nil => intro seen; simp [dedupAux]
  | cons x xs ih =>
    intro seen
    by_cases hx : x ∈ seen
    · rw [dedupAux, if_pos hx]; exact (ih seen).cons x
    · rw [dedupAux, if_neg hx]; exact (ih (x :: seen)).cons₂ x

/-- Index of the first occurrence of `x` in a list. -/
def firstIdx (x : String) : List String → Nat
  | [] => 0
  | y :: ys => if y = x then 0 else firstIdx x ys + 1

theorem pairwise_dedupAux :
    ∀ (l seen : List String),
      (dedupAux seen l).Pairwise (fun a b => firstIdx a l < firstIdx b l) := by
  intro l
  induction l with
  | nil => intro seen; simp [dedupAux]
  | cons x xs ih =>
    intro seen
    by_cases hx : x ∈ seen
    · rw [dedupAux, if_pos hx]
      refine (ih seen).imp_of_mem ?_
      intro a b ha hb hab
      have hax : ¬(x = a) := fun h => ((mem_dedupAux xs seen a).mp ha).2 (h ▸ hx)
      have hbx : ¬(x = b) := fun h => ((mem_dedupAux xs seen b).mp hb).2 (h ▸ hx)
      have e1 : firstIdx a (x :: xs) = firstIdx a xs + 1 := by
        rw [firstIdx, if_neg hax]
      have e2 : firstIdx b (x :: xs) = firstIdx b xs + 1 := by
        rw [firstIdx, if_neg hbx]
      rw [e1, e2]; omega
    · rw [dedupAux, if_neg hx, List.pairwise_cons]
      constructor
      · intro b hb
        have hbx : ¬(x = b) := fun h =>
          ((mem_dedupAux xs (x :: seen) b).mp hb).2 (h ▸ List.mem_cons_self x seen)
        have e1 : firstIdx x (x :: xs) = 0 := by rw [firstIdx, if_pos rfl]
        have e2 : firstIdx b (x :: xs) = firstIdx b xs + 1 := by
          rw [firstIdx, if_neg hbx]
        rw [e1, e2]; omega
      · refine (ih (x :: seen)).imp_of_mem ?_
        intro a b ha hb hab
        have hax : ¬(x = a) := fun h =>
          ((mem_dedupAux xs (x :: seen) a).mp ha).2 (h ▸ List.mem_cons_self x seen)
        have hbx : ¬(x = b) := fun h =>
          ((mem_dedupAux xs (x :: seen) b).mp hb).2 (h ▸ List.mem_cons_self x seen)
        have e1 : firstIdx a (x :: xs) = firstIdx a xs + 1 := by
          rw [firstIdx, if_neg hax]
        have e2 : firstIdx b (x :: xs) = firstIdx b xs + 1 := by
          rw [firstIdx, if_neg hbx]
        rw [e1, e2]; omega

/-! ### Scan lemmas -/

theorem scanA_eq_nil (m : Matcher) :
    ∀ (fuel : Nat) (l : List Char) (prev : Bool),
      (∀ t, t <:+ l → m t = none) → scanA m fuel prev l = [] := by
  intro fuel
  induction fuel with
  | zero => intro l prev _; rfl
  | succ fuel ih =>
    intro l prev h
    cases l with
    | nil => rfl
    | cons c rest =>
      have hrest : ∀ t, t <:+ rest → m t = none :=
        fun t ht => h t (ht.trans (List.suffix_cons c rest))
      cases prev with
      | true => simpa [scanA] using ih rest (isWordChar c) hrest
      | false =>
        have hc : m (c :: rest) = none := h (c :: rest) (List.suffix_refl _)
        simpa [scanA, hc] using ih rest (isWordChar c) hrest

theorem exists_of_mem_scanA (m : Matcher) :
    ∀ (fuel : Nat) (prev : Bool) (l cap : List Char),
      cap ∈ scanA m fuel prev l → ∃ t full, m t = some (cap, full) := by
  intro fuel
  induction fuel with
  | zero => intro prev l cap h; simp [scanA] at h
  | succ fuel ih =>
    intro prev l cap h
    cases l with
    | nil => simp [scanA] at h
    | cons c rest =>
      cases prev with
      | true =>
        rw [show scanA m (fuel + 1) true (c :: rest) =
            scanA m fuel (isWordChar c) rest from rfl] at h
        exact ih _ _ _ h
      | false =>
        rw [scanA] at h
        revert h
        cases hm : m (c :: rest) with
        | none => intro h; exact ih _ _ _ (by simpa using h)
        | some pr =>
          obtain ⟨cap', full⟩ := pr
          intro h
          rcases List.mem_cons.mp (by simpa using h) with rfl | htail
          · exact ⟨c :: rest, full, hm⟩
          · exact ih _ _ _ htail

theorem matchLitCI_toLower :
    ∀ (lit l m r : List Char), matchLitCI lit l = some (m, r) →
      m.map Char.toLower = lit.map Char.toLower := by
  intro lit
  induction lit with
  | nil =>
    intro l m r h
    rw [matchLitCI] at h
    obtain ⟨rfl, rfl⟩ : m = [] ∧ r = l := by
      constructor <;> cases h <;> rfl
    rfl
  | cons c cs ih =>
    intro l m r h
    cases l with
    | nil => exact absurd h (by rw [matchLitCI]; simp)
    | cons d ds =>
      rw [matchLitCI] at h
      by_cases hc : c.toLower = d.toLower
      · rw [if_pos hc] at h
        cases hm : matchLitCI cs ds with
        | none => rw [hm] at h; cases h
        | some pr =>
          obtain ⟨m', r'⟩ := pr
          rw [hm] at h
          simp only [Option.some.injEq, Prod.mk.injEq] at h
          rw [← h.1]
          simp only [List.map_cons]
          rw [ih ds m' r' hm, hc]
      · rw [if_neg hc] at h; cases h

theorem toolFamily_some :
    ∀ (ts : List (List Char)) (l cap full : List Char),
      toolFamily ts l = some (cap, full) →
      ∃ t ∈ ts, cap.map Char.toLower = t.map Char.toLower := by
  intro ts
  induction ts with
  | nil => intro l cap full h; cases h
  | cons t ts ih =>
    intro l cap full h
    rw [toolFamily] at h
    cases hm : matchLitCI t l with
    | none =>
      rw [hm] at h
      obtain ⟨t', ht', he⟩ := ih l cap full h
      exact ⟨t', List.mem_cons_of_mem t ht', he⟩
    | some pr =>
      obtain ⟨m1, r1⟩ := pr
      rw [hm] at h
      simp only [Option.some.injEq, Prod.mk.injEq] at h
      rw [← h.1]
      exact ⟨t, List.mem_cons_self t ts, matchLitCI_toLower t l m1 r1 hm⟩

theorem flatten_nil_of_all {α : Type} :
    ∀ (L : List (List α)), (∀ x ∈ L, x = []) → L.flatten = [] := by
  intro L
  induction L with
  | nil => intro _; rfl
  | cons x xs ih =>
    intro h
    rw [List.flatten_cons, h x (List.mem_cons_self x xs),
      ih (fun y hy => h y (List.mem_cons_of_mem x hy))]
    rfl

/-! ### Token and parameter lemmas -/

theorem isPrefixOf_cons_ex {c : Char} {cs l : List Char}
    (h : List.isPrefixOf (c :: cs) l = true) : ∃ ds, l = c :: ds := by
  cases l with
  | nil => simp [List.isPrefixOf] at h
  | cons d ds =>
    have : c = d := by
      have hb : (c == d) = true := by
        rw [List.isPrefixOf] at h
        exact (Bool.and_eq_true _ _ |>.mp h).1
      exact eq_of_beq hb
    exact ⟨ds, by rw [this]⟩

theorem pySplit_cons {c : Char} (l : List Char) (hc : isSpace c = false) :
    ∃ t ts, pySplit (String.mk (c :: l)) = t :: ts := by
  rw [pySplit]
  show ∃ t ts, ((splitTokens (c :: l)).filter (fun t => !t.isEmpty)).map
    (fun t => String.mk t) = t :: ts
  rw [splitTokens, if_neg (by simp [hc])]
  cases hs : splitTokens l with
  | nil => exact ⟨String.mk [c], [], rfl⟩
  | cons t ts =>
    refine ⟨String.mk (c :: t),
      ((ts.filter (fun x => !x.isEmpty)).map (fun x => String.mk x)), ?_⟩
    simp [List.filter_cons]

theorem structured_head_token {cmd : String} (h : isStructuredCmd cmd = true) :
    ∃ mod rest, pySplit cmd = mod :: rest := by
  obtain ⟨p, hp, hpre⟩ : ∃ p ∈ structuredCodes, strStarts p cmd = true := by
    simpa [isStructuredCmd, List.any_eq_true] using h
  have hcodes : ∀ q ∈ structuredCodes,
      q.data ≠ [] ∧ isSpace (q.data.headD ' ') = false := by decide
  obtain ⟨hne, hsp⟩ := hcodes p hp
  cases hpd : p.data with
  | nil => exact absurd hpd hne
  | cons c cs =>
    rw [strStarts, hpd] at hpre
    rw [hpd] at hsp
    have hc : isSpace c = false := by simpa using hsp
    obtain ⟨data⟩ := cmd
    obtain ⟨ds, hds⟩ := isPrefixOf_cons_ex hpre
    have hds' : data = c :: ds := hds
    subst hds'
    exact pySplit_cons ds hc

theorem takeWhile_to_eq (k v : List Char) (hk : '=' ∉ k) :
    (k ++ '=' :: v).takeWhile (fun c => decide (c ≠ '=')) = k
    ∧ (k ++ '=' :: v).dropWhile (fun c => decide (c ≠ '=')) = '=' :: v := by
  induction k with
  | nil => simp [List.takeWhile, List.dropWhile]
  | cons c k ih =>
    have hc : c ≠ '=' := fun h => hk (h ▸ List.mem_cons_self c k)
    have hrest := ih (fun h => hk (List.mem_cons_of_mem c h))
    constructor
    · rw [List.cons_append, List.takeWhile_cons, if_pos (by simp [hc]), hrest.1]
    · rw [List.cons_append, List.dropWhile_cons, if_pos (by simp [hc]), hrest.2]

theorem hasEq_of_append (k v : List Char) :
    hasEq (String.mk (k ++ '=' :: v)) = true := by
  simp [hasEq, List.any_append]

theorem lookupParam_setParam_self :
    ∀ (ps : List (String × String)) (k v : String),
      lookupParam (setParam ps k v) k = some v := by
  intro ps
  induction ps with
  | nil => intro k v; simp [setParam, lookupParam]
  | cons p ps ih =>
    intro k v
    obtain ⟨k', v'⟩ := p
    by_cases hk : k' = k
    · rw [setParam, if_pos hk, lookupParam, if_pos hk]
    · rw [setParam, if_neg hk, lookupParam, if_neg hk]
      exact ih k v

theorem lookup_input_foldl :
    ∀ (toks : List String) (ps : List (String × String)),
      toks ≠ [] → (∀ t ∈ toks, hasEq t = false) →
      lookupParam (toks.foldl parseStep ps) "input" = toks.getLast? := by
  intro toks
  induction toks with
  | nil => intro ps h _; exact absurd rfl h
  | cons t ts ih =>
    intro ps _ hall
    have ht : hasEq t = false := hall t (List.mem_cons_self t ts)
    cases ts with
    | nil =>
      rw [List.foldl_cons, List.foldl_nil, parseStep, if_neg (by simp [ht])]
      rw [lookupParam_setParam_self]
      rfl
    | cons u us =>
      rw [List.foldl_cons]
      rw [ih (parseStep ps t) (by simp) (fun x hx => hall x (List.mem_cons_of_mem t hx))]
      rfl

/-! ### Classification helper -/

theorem classify_process_elim {cmd : String} (h : classify cmd = .process) :
    isStructuredCmd cmd = false ∧ isProcessCmd cmd = true := by
  revert h
  unfold classify
  cases h1 : isStructuredCmd cmd <;> cases h2 : isProcessCmd cmd <;> simp

theorem dispatchOne_structured_eq (env : Env) (cmd mod : String)
    (rest : List String) (h1 : isStructuredCmd cmd = true)
    (hsplit : pySplit cmd = mod :: rest) :
    dispatchOne env cmd =
      match env.invoke mod (parseParams rest) with
      | Except.ok res => Outcome.structuredSuccess (truncate500 res)
      | Except.error e => Outcome.errorExecuting e := by
  rw [dispatchOne, if_pos h1, hsplit]

theorem dispatchOne_process_eq (env : Env) (cmd : String)
    (h1 : isStructuredCmd cmd = false) (h2 : isProcessCmd cmd = true) :
    dispatchOne env cmd =
      match env.spawn (pySplit cmd) 60 with
      | Except.ok (code, out, err) =>
        if code = 0 then Outcome.processSuccess (truncate500 out)
        else Outcome.processFailure err
      | Except.error e => Outcome.errorExecuting e := by
  rw [dispatchOne, if_neg (by simp [h1]), if_pos h2]

/-! ### Claims -/

/-- C1: the dispatch loop produces exactly one outcome per candidate,
in input order, each outcome depending only on that candidate (so a
failure of one candidate — exception, host error, process error or
classification failure — never prevents any later candidate from being
attempted); splitting the candidate list anywhere splits the outcome
list accordingly. -/
theorem dispatch_one_outcome_per_candidate (env : Env) (cands : List String) :
    (dispatch env cands).length = cands.length
    ∧ (∀ i (h1 : i < cands.length) (h2 : i < (dispatch env cands).length),
        (dispatch env cands).get ⟨i, h2⟩ = dispatchOne env (cands.get ⟨i, h1⟩))
    ∧ (∀ pre post, dispatch env (pre ++ post) = dispatch env pre ++ dispatch env post) := by
  refine ⟨by simp [dispatch], fun i h1 h2 => ?_, fun pre post => by simp [dispatch]⟩
  simp [dispatch]

theorem dispatch_one_outcome_per_candidate_witness :
    (dispatch envConst ["g.list", "bogus"]).length = 2
    ∧ (dispatch envConst ["g.list", "bogus"]).get ⟨0, by decide⟩ =
        dispatchOne envConst "g.list"
    ∧ dispatch envConst (["g.list"] ++ ["bogus"]) =
        dispatch envConst ["g.list"] ++ dispatch envConst ["bogus"] :=
  ⟨(dispatch_one_outcome_per_candidate envConst ["g.list", "bogus"]).1,
   (dispatch_one_outcome_per_candidate envConst ["g.list", "bogus"]).2.1 0
     (by decide) (by decide),
   (dispatch_one_outcome_per_candidate envConst ["g.list", "bogus"]).2.2
     ["g.list"] ["bogus"]⟩

/-- C2: classification is decided by exactly one of three mutually
exclusive rules, in order: namespace-prefix test (`startswith` on the
fixed tuple) routes to the structured backend; otherwise the
`gdal`-prefix-or-shell-tool-substring test routes to the process
backend; otherwise the candidate is an unknown command type whose
outcome does not involve either execution backend. -/
theorem classify_three_exclusive_rules (cmd : String) :
    (classify cmd = .structured ↔ isStructuredCmd cmd = true)
    ∧ (classify cmd = .process ↔
        (isStructuredCmd cmd = false ∧ isProcessCmd cmd = true))
    ∧ (classify cmd = .unknownType ↔
        (isStructuredCmd cmd = false ∧ isProcessCmd cmd = false))
    ∧ (classify cmd = .unknownType →
        ∀ env : Env, dispatchOne env cmd = .unknownCommandType) := by
  cases h1 : isStructuredCmd cmd <;> cases h2 : isProcessCmd cmd <;>
    simp [classify, dispatchOne, h1, h2]

theorem classify_three_exclusive_rules_witness :
    classify "bogus.cmd" = Backend.unknownType
    ∧ dispatchOne envConst "bogus.cmd" = Outcome.unknownCommandType :=
  ⟨by decide,
   (classify_three_exclusive_rules "bogus.cmd").2.2.2 (by decide) envConst⟩

/-- C3 (counterexample): on the spec's scenario input, `extract` does
NOT return `["g.region", "r.info map=elevation"]` — the greedy
argument capture `(?:\s+[^\s\n]+)*` of the `g.`-family pattern absorbs
the rest of the line. -/
theorem scenario_two_candidates_counterexample :
    extract "Run g.region -p and then r.info map=elevation" ≠
      ["g.region", "r.info map=elevation"] := by decide

/-- C3 (amended): on the scenario input the first candidate is the
whole greedy match starting at `g.region`, and the second is
`r.info map=elevation` found by the `r.`-family pattern. -/
theorem scenario_two_candidates :
    extract "Run g.region -p and then r.info map=elevation" =
      ["g.region -p and then r.info map=elevation", "r.info map=elevation"] := by
  decide

/-- C4: `extract` deduplicates the accumulated matches (`rawMatches`,
which concatenates the per-family scans in pattern-declaration order)
by exact string equality, keeping the first occurrence: the result is
a subsequence of the raw match list, contains exactly the strings that
occur in it, contains each such string exactly once, and is ordered by
position of first occurrence. -/
theorem extract_first_occurrence_dedup (s : String) :
    (extract s).Sublist (rawMatches s)
    ∧ (∀ x, x ∈ extract s ↔ x ∈ rawMatches s)
    ∧ (∀ x, x ∈ rawMatches s → (extract s).count x = 1)
    ∧ (extract s).Pairwise
        (fun a b => firstIdx a (rawMatches s) < firstIdx b (rawMatches s)) := by
  have he : extract s = dedupAux [] (rawMatches s) := by
    rw [extract, dedupFold_eq_dedupAux]
  refine ⟨he ▸ sublist_dedupAux _ _, fun x => ?_, fun x hx => ?_, he ▸ pairwise_dedupAux _ _⟩
  · rw [he, mem_dedupAux]; simp
  · exact List.count_eq_one_of_mem (he ▸ nodup_dedupAux _ _)
      ((he ▸ (mem_dedupAux (rawMatches s) [] x)).mpr (by simp [hx]))

theorem extract_first_occurrence_dedup_witness :
    (extract "wget, wget").count "wget" = 1
    ∧ extract "wget, wget" = ["wget"] :=
  ⟨(extract_first_occurrence_dedup "wget, wget").2.2.1 "wget" (by decide),
   by decide⟩

/-- C5: if no pattern family matches at any position of the input
(every suffix is rejected by every family matcher), `extract` returns
the empty list; it is a total function, so no error is raised. -/
theorem extract_no_match_empty (s : String)
    (h : ∀ t, t <:+ s.data → ∀ m ∈ familyMatchers, m t = none) :
    extract s = [] := by
  have hraw : rawMatches s = [] := by
    rw [rawMatches]
    apply flatten_nil_of_all
    intro x hx
    obtain ⟨m, hm, rfl⟩ := List.mem_map.mp hx
    rw [scanA_eq_nil m s.data.length s.data false (fun t ht => h t ht m hm)]
    rfl
  rw [extract, hraw]
  rfl

theorem extract_no_match_empty_witness : extract "" = [] :=
  extract_no_match_empty "" (by
    intro t ht m hm
    have ht' : t = [] := by simpa using ht
    subst ht'
    simp only [familyMatchers, List.mem_cons, List.not_mem_nil, or_false] at hm
    rcases hm with rfl | rfl | rfl | rfl | rfl | rfl | rfl | rfl | rfl <;> rfl)

/-- C6: a structured-backend candidate is split on whitespace, the
first token is the module name handed to the host interface together
with the parameters parsed from the remaining tokens; a token with `=`
is split at its first `=` into key/value; a token without `=` is
assigned to the default key `"input"` (never raising), each such token
overwriting the previous one, so with only `=`-free tokens the last
one wins. -/
theorem structured_default_key (env : Env) (cmd : String)
    (h : isStructuredCmd cmd = true) :
    (∃ mod rest, pySplit cmd = mod :: rest
      ∧ (∀ res, env.invoke mod (parseParams rest) = .ok res →
          dispatchOne env cmd = .structuredSuccess (truncate500 res))
      ∧ (∀ e, env.invoke mod (parseParams rest) = .error e →
          dispatchOne env cmd = .errorExecuting e))
    ∧ (∀ ps t, hasEq t = false → parseStep ps t = setParam ps "input" t)
    ∧ (∀ (ps : List (String × String)) (k v : List Char), '=' ∉ k →
        parseStep ps (String.mk (k ++ '=' :: v)) =
          setParam ps (String.mk k) (String.mk v))
    ∧ (∀ toks : List String, toks ≠ [] → (∀ t ∈ toks, hasEq t = false) →
        lookupParam (parseParams toks) "input" = toks.getLast?) := by
  refine ⟨?_, ?_, ?_, ?_⟩
  · obtain ⟨mod, rest, hsplit⟩ := structured_head_token h
    refine ⟨mod, rest, hsplit, fun res hres => ?_, fun e he => ?_⟩
    · rw [dispatchOne_structured_eq env cmd mod rest h hsplit, hres]
    · rw [dispatchOne_structured_eq env cmd mod rest h hsplit, he]
  · intro ps t ht
    rw [parseStep, if_neg (by simp [ht])]
  · intro ps k v hk
    have hsp := takeWhile_to_eq k v hk
    rw [parseStep, if_pos (hasEq_of_append k v)]
    simp only [splitEqFirst]
    rw [hsp.1, hsp.2, List.tail_cons]
  · intro toks hne hall
    exact lookup_input_foldl toks [] hne hall

theorem structured_default_key_witness :
    lookupParam (parseParams ["a", "b"]) "input" = (["a", "b"] : List String).getLast?
    ∧ parseStep [] "x" = setParam [] "input" "x"
    ∧ parseStep [] (String.mk (['m', 'a', 'p'] ++ '=' :: ['e', 'l'])) =
        setParam [] (String.mk ['m', 'a', 'p']) (String.mk ['e', 'l'])
    ∧ dispatchOne envConst "g.list" = Outcome.structuredSuccess (truncate500 "ok") := by
  have H := structured_default_key envConst "g.list" (by decide)
  refine ⟨H.2.2.2 ["a", "b"] (by decide) (by decide),
          H.2.1 [] "x" (by decide),
          H.2.2.1 [] ['m', 'a', 'p'] ['e', 'l'] (by decide), ?_⟩
  obtain ⟨mod, rest, hsplit, hok, _⟩ := H.1
  exact hok "ok" rfl

/-- C7: a process-backend candidate is run through the process
interface with the fixed 60-second timeout (its outcome depends only
on the behaviour of `spawn` on `cmd.split()` at timeout 60); a
non-zero exit status yields a failure carrying the captured stderr, a
raised timeout yields a failure carrying the exception message, and in
either case the dispatch loop still produces the outcomes of all
preceding and following candidates unchanged. -/
theorem process_fixed_timeout (env : Env) (cmd : String)
    (h : classify cmd = .process) :
    (∀ env2 : Env, env.spawn (pySplit cmd) 60 = env2.spawn (pySplit cmd) 60 →
        dispatchOne env cmd = dispatchOne env2 cmd)
    ∧ (∀ code out err, env.spawn (pySplit cmd) 60 = .ok (code, out, err) →
        code ≠ 0 → dispatchOne env cmd = .processFailure err)
    ∧ (∀ msg, env.spawn (pySplit cmd) 60 = .error msg →
        dispatchOne env cmd = .errorExecuting msg)
    ∧ (∀ pre post, dispatch env (pre ++ cmd :: post) =
        dispatch env pre ++ dispatchOne env cmd :: dispatch env post) := by
  obtain ⟨h1, h2⟩ := classify_process_elim h
  refine ⟨fun env2 he => ?_, fun code out err he hc => ?_, fun msg he => ?_,
          fun pre post => by simp [dispatch]⟩
  · rw [dispatchOne_process_eq env cmd h1 h2, dispatchOne_process_eq env2 cmd h1 h2, he]
  · rw [dispatchOne_process_eq env cmd h1 h2, he]
    simp [hc]
  · rw [dispatchOne_process_eq env cmd h1 h2, he]

theorem process_fixed_timeout_witness :
    dispatchOne envFail "wget url" =
      Outcome.errorExecuting "Command timed out after 60 seconds"
    ∧ dispatchOne envExit "wget url" = Outcome.processFailure "boom"
    ∧ dispatch envFail (["g.list"] ++ "wget url" :: []) =
        dispatch envFail ["g.list"] ++ dispatchOne envFail "wget url" ::
          dispatch envFail [] :=
  ⟨(process_fixed_timeout envFail "wget url" (by decide)).2.2.1 _ rfl,
   (process_fixed_timeout envExit "wget url" (by decide)).2.1 1 "" "boom" rfl
     (by decide),
   (process_fixed_timeout envFail "wget url" (by decide)).2.2.2 ["g.list"] []⟩

/-- C8: on success (either backend), the reported output is the full
captured text when its length is at most 500 characters, and otherwise
exactly its first 500 characters followed by `"..."`. -/
theorem success_output_truncated (env : Env) (cmd : String) :
    (∀ mod rest res, isStructuredCmd cmd = true → pySplit cmd = mod :: rest →
        env.invoke mod (parseParams rest) = .ok res →
        dispatchOne env cmd = .structuredSuccess
          (if res.length ≤ 500 then res else res.take 500 ++ "..."))
    ∧ (∀ out err, classify cmd = .process →
        env.spawn (pySplit cmd) 60 = .ok (0, out, err) →
        dispatchOne env cmd = .processSuccess
          (if out.length ≤ 500 then out else out.take 500 ++ "...")) := by
  have htr : ∀ s : String, truncate500 s =
      if s.length ≤ 500 then s else s.take 500 ++ "..." := by
    intro s
    rw [truncate500]
    rcases le_or_lt s.length 500 with hle | hlt
    · rw [if_neg (by omega), if_pos hle]
    · rw [if_pos hlt, if_neg (by omega)]
  constructor
  · intro mod rest res h1 hsplit hres
    rw [← htr, dispatchOne_structured_eq env cmd mod rest h1 hsplit, hres]
  · intro out err hc hspawn
    obtain ⟨h1, h2⟩ := classify_process_elim hc
    rw [← htr, dispatchOne_process_eq env cmd h1 h2, hspawn]
    rfl

theorem success_output_truncated_witness :
    dispatchOne envLong "g.list" = Outcome.structuredSuccess
      (if longOut.length ≤ 500 then longOut else longOut.take 500 ++ "...")
    ∧ dispatchOne envLong "wget url" = Outcome.processSuccess
        (if ("hi" : String).length ≤ 500 then "hi"
         else ("hi" : String).take 500 ++ "...") :=
  ⟨(success_output_truncated envLong "g.list").1 "g.list" [] longOut
     (by decide) (by decide) rfl,
   (success_output_truncated envLong "wget url").2 "hi" "" (by decide) rfl⟩

/-- C9: extraction matches case-insensitively while classification
tests prefixes case-sensitively: the input `"G.region"` yields the
candidate `"G.region"`, which every environment dispatches to the
"unknown command type" outcome without invoking either backend. -/
theorem case_mismatch_unknown :
    extract "G.region" = ["G.region"]
    ∧ classify "G.region" = Backend.unknownType
    ∧ ∀ env : Env, dispatchOne env "G.region" = Outcome.unknownCommandType := by
  refine ⟨by decide, by decide, fun env => ?_⟩
  rw [dispatchOne, if_neg (by decide), if_neg (by decide)]

/-- C10: every candidate produced by the shell-utility pattern family
is the bare tool name (its lowercasing is one of the eight fixed
names), with no argument text attached, because only the alternation
is inside the capture group. -/
theorem shell_family_bare_names (s : String) (c : String)
    (h : c ∈ shellMatches s) : c.data.map Char.toLower ∈ toolNames := by
  obtain ⟨cap, hcap, rfl⟩ := List.mem_map.mp h
  obtain ⟨t, full, hm⟩ := exists_of_mem_scanA (toolFamily toolNames) _ _ _ _ hcap
  obtain ⟨tool, htool, heq⟩ := toolFamily_some toolNames t cap full hm
  have hlow : ∀ u ∈ toolNames, u.map Char.toLower = u := by decide
  rw [show (String.mk cap).data = cap from rfl, heq, hlow tool htool]
  exact htool

theorem shell_family_bare_names_witness :
    ("wget" : String).data.map Char.toLower ∈ toolNames :=
  shell_family_bare_names "get wget now" "wget" (by decide)
